import Mathlib

set_option autoImplicit false

namespace UnrealDoc

/- The semantic builder of `src/ast/unreal_cpp_header.rs` is embedded below.
   Rust strings are modelled as lists of characters; the byte/char distinction
   is immaterial for the ASCII header text the grammar accepts. -/

abbrev Str := List Char

def str (s : String) : Str := s.toList

/-- Splitting on a separator character, as Rust `str::split`: always at least
one part, and `n` separators yield `n + 1` parts. -/
def splitOnChar (sep : Char) : Str → List Str
  | [] => [[]]
  | c :: rest =>
    let ps := splitOnChar sep rest
    if c = sep then [] :: ps
    else
      match ps with
      | [] => [[c]]
      | p :: tl => (c :: p) :: tl

/-- Rust `str::lines`: split on newline, drop one trailing empty segment
produced by a trailing newline, and strip a trailing carriage return from
each line. -/
def rustLines (s : Str) : List Str :=
  let parts := splitOnChar '\n' s
  let parts := if parts.getLast? = some [] ∧ parts.length > 1 then parts.dropLast else
    (if parts = [[]] then [] else parts)
  parts.map (fun l => if l.getLast? = some '\r' then l.dropLast else l)

/-- Rust `Vec::join("\n")` on a list of lines. -/
def joinLines : List Str → Str
  | [] => []
  | [l] => l
  | l :: rest => l ++ '\n' :: joinLines rest

/-- Rust `str::trim`: whitespace removed from both ends. -/
def trimChars (s : Str) : Str :=
  ((s.dropWhile Char.isWhitespace).reverse.dropWhile Char.isWhitespace).reverse

/-- Count of leading whitespace characters of a line, as
`line.chars().take_while(|c| c.is_whitespace()).count()`. -/
def leadingWsCount (line : Str) : Nat :=
  (line.takeWhile Char.isWhitespace).length

/-- Rust `str::find(pat)`: index of the first occurrence of the pattern. -/
def findSub (pat : Str) : Str → Option Nat
  | [] => if pat = [] then some 0 else none
  | c :: t => if pat.isPrefixOf (c :: t) then some 0 else (findSub pat t).map (· + 1)

/- ### The rule taxonomy of the grammar (`Rule` in the generated parser) -/

inductive Rule where
  | file | proxy | snippet | element
  | element_enum | element_struct | element_class | element_property
  | element_function | element_delegate | element_multicast_delegate
  | element_dynamic_delegate | element_dyn_multicast_delegate
  | doc_comment_lines | proxy_tags | proxy_line_content
  | identifier | snippet_inner
  | uenum | enum_signature | enum_body
  | ustruct | uclass | struct_signature | class_signature | struct_class_body
  | visibility | inject
  | uproperty | property_signature | value_type | property_array | default_value
  | staticness | virtualness | constness | overrideness | operator
  | udelegate | delegate_name | delegate_arguments | dynamic_delegate_arguments
  | delegate_argument | dynamic_delegate_argument | delegate_argument_name
  | ufunction | function_signature | constructor_signature | function_body
  | function_arguments | function_argument
  | template_declaration | api | inheritances
  | specifier_list | specifier_single | specifier_pair | specifier_meta
  | other
  deriving DecidableEq

/-- A node of the parse tree handed over by the external grammar (a pest
`Pair`): its rule kind, the exact source text it spans (`as_str`), the line
it starts on (`line_col().0`), and its child nodes (`into_inner()`). -/
inductive PTree where
  | mk (rule : Rule) (text : Str) (line : Nat) (children : List PTree)

def PTree.rule : PTree → Rule
  | .mk r _ _ _ => r

def PTree.text : PTree → Str
  | .mk _ t _ _ => t

def PTree.line : PTree → Nat
  | .mk _ _ l _ => l

def PTree.children : PTree → List PTree
  | .mk _ _ _ cs => cs

instance : Inhabited PTree := ⟨.mk .other [] 0 []⟩

/- ### The document model (`document.rs` is not part of the sources; its
   shape is modelled from the spec, section 3). -/

inductive Visibility where
  | Public | Protected | Private
  deriving DecidableEq

inductive StructClassMode where
  | Struct | Class
  deriving DecidableEq

/-- Modelled from the spec: default member visibility at body entry is
Public for a struct and Private for a class (the `default_visibility`
method lives in the external `document.rs`). -/
def StructClassMode.default_visibility : StructClassMode → Visibility
  | .Struct => .Public
  | .Class => .Private

inductive Attribute where
  | single (name : Str)
  | pair (key : Str) (value : Str)
  deriving DecidableEq

structure Specifiers where
  attributes : List Attribute := []
  meta : List Attribute := []
  deriving DecidableEq

structure Enum where
  name : Str := []
  doc_comments : Option Str := none
  specifiers : Option Specifiers := none
  variants : List Str := []
  filename : Str := []
  fileline : Nat := 0
  deriving DecidableEq

inductive PropertyArray where
  | Unsized
  | Sized (size : Str)
  deriving DecidableEq

structure Property where
  name : Str := []
  value_type : Str := []
  array : PropertyArray := .Unsized
  default_value : Option Str := none
  specifiers : Option Specifiers := none
  visibility : Visibility := .Public
  is_static : Bool := false
  doc_comments : Option Str := none
  deriving DecidableEq

structure Argument where
  name : Option Str := none
  value_type : Str := []
  default_value : Option Str := none
  doc_comments : Option Str := none
  deriving DecidableEq

structure Function where
  name : Str := []
  return_type : Option Str := none
  arguments : List Argument := []
  template : Option Str := none
  is_virtual : Bool := false
  is_const_this : Bool := false
  is_override : Bool := false
  is_static : Bool := false
  specifiers : Option Specifiers := none
  visibility : Visibility := .Public
  doc_comments : Option Str := none
  filename : Str := []
  fileline : Nat := 0
  deriving DecidableEq

structure Delegate where
  name : Str := []
  multicast : Bool := false
  dynamic : Bool := false
  arguments : List Argument := []
  return_type : Option Str := none
  specifiers : Option Specifiers := none
  doc_comments : Option Str := none
  filename : Str := []
  fileline : Nat := 0
  deriving DecidableEq

structure StructClass where
  mode : StructClassMode := .Struct
  name : Str := []
  doc_comments : Option Str := none
  specifiers : Option Specifiers := none
  template : Option Str := none
  api : Option Str := none
  inherits : List (Visibility × Str) := []
  injects : List Str := []
  properties : List Property := []
  methods : List Function := []
  constructors : List Function := []
  filename : Str := []
  fileline : Nat := 0
  deriving DecidableEq

/-- The generic `Proxy<T>`: a tag set plus the forwarded item. The Rust
`HashSet` of tags is modelled as a duplicate-free insertion list. -/
structure Proxy (T : Type) where
  tags : List Str := []
  item : T
  deriving DecidableEq

/-- Insertion into a set modelled as a duplicate-free list. -/
def setInsert (l : List Str) (x : Str) : List Str :=
  if x ∈ l then l else l ++ [x]

/-- The snippet map (`HashMap<String, String>`) modelled as an association
list keyed by snippet name. -/
abbrev SnippetMap := List (Str × Str)

def snippetsContainsKey (m : SnippetMap) (k : Str) : Bool :=
  m.any (fun p => p.1 = k)

def snippetsInsert (m : SnippetMap) (k v : Str) : SnippetMap :=
  if snippetsContainsKey m k then
    m.map (fun p => if p.1 = k then (p.1, v) else p)
  else
    m ++ [(k, v)]

def snippetsGet (m : SnippetMap) (k : Str) : Option Str :=
  (m.find? (fun p => p.1 = k)).map Prod.snd

structure Document where
  enums : List Enum := []
  structs : List StructClass := []
  classes : List StructClass := []
  functions : List Function := []
  delegates : List Delegate := []
  proxy_functions : List (Proxy Function) := []
  proxy_properties : List (Proxy Property) := []
  snippets : SnippetMap := []
  deriving DecidableEq

/-- Modelled from the spec: the export policy is an external predicate
supplied per entity kind (`Settings` and the `can_export` methods live
outside the parsed sources); an entity failing it never enters the
Document. -/
structure Settings where
  exportEnum : Enum → Bool := fun _ => true
  exportStructClass : StructClass → Bool := fun _ => true
  exportProperty : Property → Bool := fun _ => true
  exportFunction : Function → Bool := fun _ => true
  exportDelegate : Delegate → Bool := fun _ => true

def Enum.can_export (e : Enum) (s : Settings) : Bool := s.exportEnum e
def StructClass.can_export (e : StructClass) (s : Settings) : Bool := s.exportStructClass e
def Property.can_export (e : Property) (s : Settings) : Bool := s.exportProperty e
def Function.can_export (e : Function) (s : Settings) : Bool := s.exportFunction e
def Delegate.can_export (e : Delegate) (s : Settings) : Bool := s.exportDelegate e

/-- The state threaded through the builder: the mutable `Document` together
with the log of `println!` warning lines. -/
abbrev St := Document × List Str

/- ### Leaf parsers (straightforward translations from the source file).
   Where the source calls `.next().unwrap()` on children the grammar
   guarantees to exist, the embedding takes the default node when absent. -/

def parse_identifier (t : PTree) : Str := t.text

def parse_value_type (t : PTree) : Str := trimChars t.text

def parse_template_declaration (t : PTree) : Str := trimChars t.text

def parse_default_value (t : PTree) : Str := (t.children.headD default).text

def parse_visibility (t : PTree) : Option Visibility :=
  if t.text = str "private" then some .Private
  else if t.text = str "protected" then some .Protected
  else if t.text = str "public" then some .Public
  else none

def parse_inheritances (t : PTree) : List (Visibility × Str) :=
  t.children.foldl (fun result c =>
    let c0 := c.children.headD default
    let c1 := (c.children.drop 1).headD default
    result ++ [((parse_visibility c0).getD .Public, parse_value_type c1)]) []

def parse_specifier_meta (t : PTree) (result : Specifiers) : Specifiers :=
  t.children.foldl (fun result c =>
    match c.rule with
    | .specifier_single =>
        { result with meta := result.meta ++
            [.single (parse_identifier (c.children.headD default))] }
    | .specifier_pair =>
        { result with meta := result.meta ++
            [.pair (parse_identifier (c.children.headD default))
                   (parse_identifier ((c.children.drop 1).headD default))] }
    | _ => result) result

def parse_specifiers (t : PTree) : Specifiers :=
  match t.children.head? with
  | none => {}
  | some inner =>
    inner.children.foldl (fun result c =>
      match c.rule with
      | .specifier_single =>
          { result with attributes := result.attributes ++
              [.single (parse_identifier (c.children.headD default))] }
      | .specifier_pair =>
          { result with attributes := result.attributes ++
              [.pair (parse_identifier (c.children.headD default))
                     (parse_identifier ((c.children.drop 1).headD default))] }
      | .specifier_meta => parse_specifier_meta c result
      | _ => result) {}

def parse_doc_comments (text : Str) : Str :=
  joinLines ((rustLines text).map (fun line =>
    match findSub (str "///") line with
    | some loc => trimChars (line.drop (loc + 3))
    | none => []))

def parse_snippet_inner (text : Str) : Str :=
  let level := ((rustLines text).map leadingWsCount).min?.getD 0
  joinLines ((rustLines text).map (fun line => line.drop level))

def parse_snippet (t : PTree) (st : St) : St :=
  let acc := t.children.foldl (fun (acc : Option Str × Option Str) c =>
    match c.rule with
    | .identifier => (some (parse_identifier c), acc.2)
    | .snippet_inner => (acc.1, some (parse_snippet_inner c.text))
    | _ => acc) (none, none)
  match acc with
  | (some id, some content) =>
    let log := if snippetsContainsKey st.1.snippets id then
        st.2 ++ [str "Overwriting existing snippet: " ++ id]
      else st.2
    ({ st.1 with snippets := snippetsInsert st.1.snippets id content }, log)
  | _ => st

def parse_enum_signature (t : PTree) : Str :=
  parse_identifier (t.children.headD default)

def parse_enum_body (t : PTree) (result : Enum) : Enum :=
  t.children.foldl (fun result c =>
    { result with variants := result.variants ++ [parse_identifier c] }) result

def parse_element_enum (t : PTree) (doc_comments : Option Str) (filename : Str) : Enum :=
  let result : Enum :=
    { doc_comments := doc_comments, fileline := t.line, filename := filename }
  t.children.foldl (fun result c =>
    match c.rule with
    | .uenum => { result with specifiers := some (parse_specifiers c) }
    | .enum_signature => { result with name := parse_enum_signature c }
    | .enum_body => parse_enum_body c result
    | _ => result) result

def parse_struct_class_signature (t : PTree) (result : StructClass) : StructClass :=
  t.children.foldl (fun result c =>
    match c.rule with
    | .template_declaration =>
        { result with template := some (parse_template_declaration c) }
    | .api => { result with api := some (parse_identifier c) }
    | .identifier => { result with name := parse_identifier c }
    | .inheritances => { result with inherits := parse_inheritances c }
    | _ => result) result

def parse_property_array (t : PTree) : PropertyArray :=
  match t.children.head? with
  | some c => .Sized (trimChars c.text)
  | none => .Unsized

def parse_property_signature (t : PTree) (result : Property) : Property :=
  t.children.foldl (fun result c =>
    match c.rule with
    | .value_type => { result with value_type := parse_value_type c }
    | .identifier => { result with name := parse_identifier c }
    | .property_array => { result with array := parse_property_array c }
    | .default_value => { result with default_value := some (parse_default_value c) }
    | .staticness => { result with is_static := true }
    | _ => result) result

def parse_element_property (t : PTree) (doc_comments : Option Str)
    (visibility : Visibility) : Property :=
  let result : Property := { doc_comments := doc_comments, visibility := visibility }
  t.children.foldl (fun result c =>
    match c.rule with
    | .uproperty => { result with specifiers := some (parse_specifiers c) }
    | .property_signature => parse_property_signature c result
    | _ => result) result

def parse_delegate_arg (t : PTree) (is_dynamic : Bool) : Argument :=
  t.children.foldl (fun arg c =>
    if is_dynamic then
      match c.rule with
      | .identifier => { arg with name := some (parse_identifier c) }
      | .value_type => { arg with value_type := parse_value_type c }
      | _ => arg
    else
      match c.rule with
      | .delegate_argument_name => { arg with name := some (parse_identifier c) }
      | .value_type => { arg with value_type := parse_value_type c }
      | _ => arg) {}

def parse_delegate_args (t : PTree) (delegate : Delegate) : Delegate :=
  t.children.foldl (fun delegate c =>
    match c.rule with
    | .delegate_argument =>
        { delegate with arguments := delegate.arguments ++
            [parse_delegate_arg c delegate.dynamic] }
    | .dynamic_delegate_argument =>
        { delegate with arguments := delegate.arguments ++
            [parse_delegate_arg c delegate.dynamic] }
    | _ => delegate) delegate

def parse_element_delegate (t : PTree) (doc_comments : Option Str)
    (_document : Document) (filename : Str) : Delegate :=
  let result : Delegate :=
    { doc_comments := doc_comments, filename := filename, fileline := t.line }
  let result := if t.rule = .element_multicast_delegate ∨
      t.rule = .element_dyn_multicast_delegate then
    { result with multicast := true } else result
  let result := if t.rule = .element_dynamic_delegate ∨
      t.rule = .element_dyn_multicast_delegate then
    { result with dynamic := true } else result
  t.children.foldl (fun result c =>
    match c.rule with
    | .udelegate => { result with specifiers := some (parse_specifiers c) }
    | .delegate_name => { result with name := c.text }
    | .delegate_arguments => parse_delegate_args c result
    | .dynamic_delegate_arguments => parse_delegate_args c result
    | _ => result) result

def parse_function_argument (t : PTree) : Argument :=
  t.children.foldl (fun result c =>
    match c.rule with
    | .doc_comment_lines =>
        { result with doc_comments := some (parse_doc_comments c.text) }
    | .value_type => { result with value_type := parse_value_type c }
    | .identifier => { result with name := some (parse_identifier c) }
    | .default_value => { result with default_value := some (parse_default_value c) }
    | _ => result) {}

def parse_function_arguments (t : PTree) (result : Function) : Function :=
  t.children.foldl (fun result c =>
    if c.rule = .function_argument then
      { result with arguments := result.arguments ++ [parse_function_argument c] }
    else result) result

def parse_function_signature (t : PTree) (result : Function) : Function :=
  t.children.foldl (fun result c =>
    match c.rule with
    | .template_declaration =>
        { result with template := some (parse_template_declaration c) }
    | .virtualness => { result with is_virtual := true }
    | .value_type => { result with return_type := some (parse_value_type c) }
    | .operator => { result with name := parse_identifier c }
    | .identifier => { result with name := parse_identifier c }
    | .function_arguments => parse_function_arguments c result
    | .constness => { result with is_const_this := true }
    | .overrideness => { result with is_override := true }
    | .staticness => { result with is_static := true }
    | _ => result) result

def parse_function_body (t : PTree) (st : St) : St :=
  t.children.foldl (fun st c =>
    if c.rule = .snippet then parse_snippet c st else st) st

def parse_element_function (t : PTree) (doc_comments : Option Str)
    (visibility : Visibility) (st : St) (filename : Str) : Function × St :=
  let result : Function :=
    { doc_comments := doc_comments, visibility := visibility,
      filename := filename, fileline := t.line }
  t.children.foldl (fun (acc : Function × St) c =>
    match c.rule with
    | .ufunction => ({ acc.1 with specifiers := some (parse_specifiers c) }, acc.2)
    | .function_signature => (parse_function_signature c acc.1, acc.2)
    | .constructor_signature => (parse_function_signature c acc.1, acc.2)
    | .function_body => (acc.1, parse_function_body c acc.2)
    | _ => acc) (result, st)

/-- The polymorphic element result of the element dispatcher. -/
inductive Element where
  | None
  | Enum (e : Enum)
  | StructClass (e : StructClass)
  | Property (e : Property)
  | Function (e : Function)
  | Delegate (e : Delegate)
  deriving DecidableEq

/- ### The recursive core: element dispatch and struct/class body parsing.
   The `go` functions are the source's `for` loops over child nodes, with
   the loop-local mutable variables threaded as accumulators. -/

mutual

def parse_element (t : PTree) (visibility : Visibility) (settings : Settings)
    (st : St) (filename : Str) : Element × St :=
  match t with
  | .mk _ _ _ cs => parse_element_go cs .None none visibility settings st filename

def parse_element_go (cs : List PTree) (result : Element)
    (doc_comments : Option Str) (visibility : Visibility) (settings : Settings)
    (st : St) (filename : Str) : Element × St :=
  match cs with
  | [] => (result, st)
  | c :: rest =>
    match c.rule with
    | .doc_comment_lines =>
        parse_element_go rest result (some (parse_doc_comments c.text))
          visibility settings st filename
    | .element_enum =>
        parse_element_go rest (.Enum (parse_element_enum c doc_comments filename))
          doc_comments visibility settings st filename
    | .element_struct =>
        let r := parse_element_struct_class c doc_comments .Struct settings st filename
        parse_element_go rest (.StructClass r.1) doc_comments visibility settings
          r.2 filename
    | .element_class =>
        let r := parse_element_struct_class c doc_comments .Class settings st filename
        parse_element_go rest (.StructClass r.1) doc_comments visibility settings
          r.2 filename
    | .element_property =>
        parse_element_go rest
          (.Property (parse_element_property c doc_comments visibility))
          doc_comments visibility settings st filename
    | .element_function =>
        let r := parse_element_function c doc_comments visibility st filename
        parse_element_go rest (.Function r.1) doc_comments visibility settings
          r.2 filename
    | .element_delegate =>
        parse_element_go rest
          (.Delegate (parse_element_delegate c doc_comments st.1 filename))
          doc_comments visibility settings st filename
    | .element_multicast_delegate =>
        parse_element_go rest
          (.Delegate (parse_element_delegate c doc_comments st.1 filename))
          doc_comments visibility settings st filename
    | .element_dynamic_delegate =>
        parse_element_go rest
          (.Delegate (parse_element_delegate c doc_comments st.1 filename))
          doc_comments visibility settings st filename
    | .element_dyn_multicast_delegate =>
        parse_element_go rest
          (.Delegate (parse_element_delegate c doc_comments st.1 filename))
          doc_comments visibility settings st filename
    | _ => parse_element_go rest result doc_comments visibility settings st filename

def parse_element_struct_class (t : PTree) (doc_comments : Option Str)
    (mode : StructClassMode) (settings : Settings) (st : St) (filename : Str) :
    StructClass × St :=
  match t with
  | .mk _ _ line cs =>
    parse_element_struct_class_go cs
      { mode := mode, doc_comments := doc_comments,
        filename := filename, fileline := line }
      mode settings st filename

def parse_element_struct_class_go (cs : List PTree) (result : StructClass)
    (mode : StructClassMode) (settings : Settings) (st : St) (filename : Str) :
    StructClass × St :=
  match cs with
  | [] => (result, st)
  | c :: rest =>
    match c.rule with
    | .ustruct =>
        parse_element_struct_class_go rest
          { result with specifiers := some (parse_specifiers c) }
          mode settings st filename
    | .uclass =>
        parse_element_struct_class_go rest
          { result with specifiers := some (parse_specifiers c) }
          mode settings st filename
    | .struct_signature =>
        parse_element_struct_class_go rest (parse_struct_class_signature c result)
          mode settings st filename
    | .class_signature =>
        parse_element_struct_class_go rest (parse_struct_class_signature c result)
          mode settings st filename
    | .struct_class_body =>
        let r := parse_struct_class_body c result mode.default_visibility
          settings st filename
        parse_element_struct_class_go rest r.1 mode settings r.2 filename
    | _ => parse_element_struct_class_go rest result mode settings st filename

def parse_struct_class_body (t : PTree) (result : StructClass)
    (visibility : Visibility) (settings : Settings) (st : St) (filename : Str) :
    StructClass × St :=
  match t with
  | .mk _ _ _ cs =>
    parse_struct_class_body_go cs result visibility settings st filename

def parse_struct_class_body_go (cs : List PTree) (result : StructClass)
    (visibility : Visibility) (settings : Settings) (st : St) (filename : Str) :
    StructClass × St :=
  match cs with
  | [] => (result, st)
  | c :: rest =>
    match c.rule with
    | .visibility =>
        let v := match parse_visibility c with
          | some v => v
          | none => visibility
        parse_struct_class_body_go rest result v settings st filename
    | .inject =>
        let injects := c.children.foldl
          (fun s p => setInsert s (parse_identifier p)) result.injects
        parse_struct_class_body_go rest { result with injects := injects }
          visibility settings st filename
    | .element =>
        let r := parse_element c visibility settings st filename
        match r.1 with
        | .Property element =>
            let result := if element.can_export settings then
                { result with properties := result.properties ++ [element] }
              else result
            parse_struct_class_body_go rest result visibility settings r.2 filename
        | .Function element =>
            let result := if element.can_export settings then
                (if element.return_type = none then
                  { result with constructors := result.constructors ++ [element] }
                else
                  { result with methods := result.methods ++ [element] })
              else result
            parse_struct_class_body_go rest result visibility settings r.2 filename
        | _ => parse_struct_class_body_go rest result visibility settings r.2 filename
    | _ => parse_struct_class_body_go rest result visibility settings st filename

end

/- ### Top level: proxies, file dispatch. -/

/-- The external grammar invoked with the `element` entry point (used by
`parse_unreal_cpp_element` to re-parse a proxy's forwarded text): `none`
models a grammar failure. -/
abbrev ElementOracle := Str → Option PTree

/-- The function `parse_unreal_cpp_element` re-parses a text fragment as a
standalone element. A grammar failure aborts the process in the source; the
abort is modelled as `none` (as is the unreachable branch taken when the
root of the returned tree is not an `element` node). -/
def parse_unreal_cpp_element (g : ElementOracle) (content : Str)
    (settings : Settings) (st : St) (filename : Str) : Option (Element × St) :=
  match g content with
  | none => none
  | some pair =>
    if pair.rule = .element then
      some (parse_element pair .Public settings st filename)
    else none

/-- The loop of `parse_proxy` collecting doc comments, the tag set and the
forwarded declaration text from the proxy node's children. -/
def proxyFold (cs : List PTree) : Option Str × List Str × Str :=
  cs.foldl (fun acc c =>
    match c.rule with
    | .doc_comment_lines => (some (parse_doc_comments c.text), acc.2.1, acc.2.2)
    | .proxy_tags =>
        (acc.1,
         c.children.foldl (fun tags p => setInsert tags (parse_identifier p)) acc.2.1,
         acc.2.2)
    | .proxy_line_content => (acc.1, acc.2.1, acc.2.2 ++ c.text)
    | _ => acc) (none, [], [])

/-- The forwarded declaration text accumulated by `parse_proxy`. -/
def proxyContent (t : PTree) : Str := (proxyFold t.children).2.2

def parse_proxy (g : ElementOracle) (t : PTree) (settings : Settings) (st : St)
    (filename : Str) : Option St :=
  let acc := proxyFold t.children
  match parse_unreal_cpp_element g acc.2.2 settings st filename with
  | none => none
  | some (el, st') =>
    match el with
    | .Function item =>
      match acc.1 with
      | some dc =>
          some ({ st'.1 with proxy_functions := st'.1.proxy_functions ++
                    [{ tags := acc.2.1, item := { item with doc_comments := some dc } }] },
                st'.2)
      | none => some st'
    | .Property item =>
      match acc.1 with
      | some dc =>
          some ({ st'.1 with proxy_properties := st'.1.proxy_properties ++
                    [{ tags := acc.2.1, item := { item with doc_comments := some dc } }] },
                st'.2)
      | none => some st'
    | _ => some st'

/-- The big `match` inside `parse_file` on the result of `parse_element`:
export gating, duplicate-name warning, and `push` into the matching
collection. -/
def dispatchElement (el : Element) (settings : Settings) (st : St) : St :=
  match el with
  | .Enum element =>
      if element.can_export settings then
        let log := if st.1.enums.any (fun item => item.name = element.name) then
            st.2 ++ [str "Overwriting existing enum: " ++ element.name]
          else st.2
        ({ st.1 with enums := st.1.enums ++ [element] }, log)
      else st
  | .StructClass element =>
      match element.mode with
      | .Struct =>
        if element.can_export settings then
          let log := if st.1.structs.any (fun item => item.name = element.name) then
              st.2 ++ [str "Overwriting existing struct: " ++ element.name]
            else st.2
          ({ st.1 with structs := st.1.structs ++ [element] }, log)
        else st
      | .Class =>
        if element.can_export settings then
          let log := if st.1.classes.any (fun item => item.name = element.name) then
              st.2 ++ [str "Overwriting existing class: " ++ element.name]
            else st.2
          ({ st.1 with classes := st.1.classes ++ [element] }, log)
        else st
  | .Delegate element =>
      if element.can_export settings then
        let log := if st.1.delegates.any (fun item => item.name = element.name) then
            st.2 ++ [str "Overwriting existing delegate: " ++ element.name]
          else st.2
        ({ st.1 with delegates := st.1.delegates ++ [element] }, log)
      else st
  | .Function element =>
      if element.can_export settings then
        let log := if st.1.functions.any (fun item => item.name = element.name) then
            st.2 ++ [str "Overwriting existing function: " ++ element.name]
          else st.2
        ({ st.1 with functions := st.1.functions ++ [element] }, log)
      else st
  | _ => st

def parse_file_go (g : ElementOracle) : List PTree → Settings → St → Str → Option St
  | [], _, st, _ => some st
  | c :: rest, settings, st, filename =>
    match c.rule with
    | .proxy =>
      match parse_proxy g c settings st filename with
      | none => none
      | some st' => parse_file_go g rest settings st' filename
    | .snippet => parse_file_go g rest settings (parse_snippet c st) filename
    | .element =>
      let r := parse_element c .Public settings st filename
      parse_file_go g rest settings (dispatchElement r.1 settings r.2) filename
    | _ => parse_file_go g rest settings st filename

/-- The function `parse_file` makes one pass over the top-level children of
a `file` node. The `Option` result models the process abort reachable
through a proxy whose forwarded text fails the standalone element
grammar. -/
def parse_file (g : ElementOracle) (t : PTree) (settings : Settings) (st : St)
    (filename : Str) : Option St :=
  parse_file_go g t.children settings st filename

/- ### Spec-side definitions, written from the spec's wording, to be compared
   with the source translations above. -/

/-- The re-indentation rule as the spec words it: N is the minimum count of
leading whitespace characters over all lines of the body (blank lines
contribute the count of their own, possibly zero, leading run), and every
line is stripped of exactly its first N characters, the results rejoined
with newline. -/
def spec_snippet_strip (text : Str) : Str :=
  let lines := rustLines text
  let n := match (lines.map leadingWsCount).min? with
    | some m => m
    | none => 0
  joinLines (lines.map (fun line => line.drop n))

/-- One line of a doc-comment block as the spec words it: locate the comment
marker, take the remainder, trim whitespace, default to the empty string
when the marker is absent on that line. -/
def spec_doc_line (line : Str) : Str :=
  ((findSub (str "///") line).map (fun loc => trimChars (line.drop (loc + 3)))).getD []

/-- Equality of two documents on every collection except the snippet map:
used to state which parts of the Document an operation leaves untouched. -/
def nonSnippetFieldsEq (d d' : Document) : Prop :=
  d'.enums = d.enums ∧ d'.structs = d.structs ∧ d'.classes = d.classes ∧
  d'.functions = d.functions ∧ d'.delegates = d.delegates ∧
  d'.proxy_functions = d.proxy_functions ∧ d'.proxy_properties = d.proxy_properties

/-- The warning log grew only by snippet-overwrite warnings: every line
added on top of the starting log is of the form
`Overwriting existing snippet: <id>`. Used to state that an operation
emits no other diagnostic. -/
def logOnlySnippetWarnings (st st' : St) : Prop :=
  ∃ extra, st'.2 = st.2 ++ extra ∧
    ∀ l ∈ extra, ∃ id, l = str "Overwriting existing snippet: " ++ id

/-- The rule kinds that determine an element's variant in `parse_element`. -/
def isVariantRule (r : Rule) : Bool :=
  r = .element_enum ∨ r = .element_struct ∨ r = .element_class ∨
  r = .element_property ∨ r = .element_function ∨ r = .element_delegate ∨
  r = .element_multicast_delegate ∨ r = .element_dynamic_delegate ∨
  r = .element_dyn_multicast_delegate

/- ### Concrete parse trees used by witnesses and counterexamples. -/

/-- An `element` node wrapping one enum declaration named `E`. -/
def enumElemE : PTree :=
  .mk .element (str "UENUM()\nenum class E { A, B };") 1
    [.mk .element_enum (str "enum class E ...") 1
      [.mk .uenum (str "UENUM()") 1 [],
       .mk .enum_signature (str "enum class E") 1 [.mk .identifier (str "E") 1 []],
       .mk .enum_body (str "A, B") 1
         [.mk .identifier (str "A") 1 [], .mk .identifier (str "B") 1 []]]]

/-- A file node declaring the enum `E` twice. -/
def c1File : PTree := .mk .file [] 1 [enumElemE, enumElemE]

/-- An `element` node wrapping a function with no return type (a
constructor signature) named `MakeThing`. -/
def c3CtorElem : PTree :=
  .mk .element (str "UFUNCTION()\nMakeThing();") 1
    [.mk .element_function (str "MakeThing();") 2
      [.mk .ufunction (str "UFUNCTION()") 1 [],
       .mk .constructor_signature (str "MakeThing()") 2
         [.mk .identifier (str "MakeThing") 2 [],
          .mk .function_arguments [] 2 []]]]

/-- A visibility label node whose text is `protected`. -/
def c4Label : PTree := .mk .visibility (str "protected") 3 []

/-- An `element` node wrapping one plain property `int32 Health;`. -/
def propElemHealth : PTree :=
  .mk .element (str "UPROPERTY()\nint32 Health;") 4
    [.mk .element_property (str "int32 Health;") 5
      [.mk .uproperty (str "UPROPERTY()") 4 [],
       .mk .property_signature (str "int32 Health;") 5
         [.mk .value_type (str "int32 ") 5 [],
          .mk .identifier (str "Health") 5 []]]]

/-- A dynamic (non-multicast) delegate declaration with the single argument
pair `(int32, Value)`. -/
def c6DynDelegate : PTree :=
  .mk .element_dynamic_delegate
    (str "DECLARE_DYNAMIC_DELEGATE_OneParam(FOnValue, int32, Value);") 7
    [.mk .udelegate (str "UDELEGATE()") 6 [],
     .mk .delegate_name (str "FOnValue") 7 [],
     .mk .dynamic_delegate_arguments (str "int32, Value") 7
       [.mk .dynamic_delegate_argument (str "int32, Value") 7
         [.mk .value_type (str "int32") 7 [],
          .mk .identifier (str "Value") 7 []]]]

/-- An `element` node wrapping a function whose body holds a snippet block
named `snip` with body text `x`. -/
def funcElemWithSnippet : PTree :=
  .mk .element (str "void Foo() ...") 1
    [.mk .element_function (str "void Foo() ...") 1
      [.mk .function_signature (str "void Foo()") 1
        [.mk .value_type (str "void ") 1 [],
         .mk .identifier (str "Foo") 1 [],
         .mk .function_arguments [] 1 []],
       .mk .function_body (str "...") 1
         [.mk .snippet (str "// [Snippet: snip] ...") 2
           [.mk .identifier (str "snip") 2 [],
            .mk .snippet_inner (str "x") 3 []]]]]

/-- A proxy node with tags and a forwarded declaration text but no doc
comments. -/
def c7Proxy : PTree :=
  .mk .proxy (str "// [Proxy: tag] fwd") 1
    [.mk .proxy_tags (str "tag") 1 [.mk .identifier (str "tag") 1 []],
     .mk .proxy_line_content (str "fwd") 1 []]

/-- An element oracle that parses the text `fwd` into
`funcElemWithSnippet` and rejects everything else. -/
def c7Oracle : ElementOracle :=
  fun c => if c = str "fwd" then some funcElemWithSnippet else none

/-- A settings value whose export policy rejects every function. -/
def rejectFunctionsSettings : Settings := { exportFunction := fun _ => false }

/- ### Helper lemmas. -/

theorem foldl_preserves {α β : Type _} (P : β → Prop) (f : β → α → β)
    (l : List α) (b : β) (hb : P b) (h : ∀ b a, P b → P (f b a)) :
    P (l.foldl f b) := by
  induction l generalizing b with
  | nil => exact hb
  | cons a tl ih => exact ih _ (h _ _ hb)

theorem snippetsInsert_cons_ne (p : Str × Str) (tl : SnippetMap) (k v : Str)
    (hp : ¬ p.1 = k) :
    snippetsInsert (p :: tl) k v = p :: snippetsInsert tl k v := by
  unfold snippetsInsert snippetsContainsKey
  by_cases h : tl.any (fun q => decide (q.1 = k)) = true
  · simp [List.any_cons, h, hp]
  · simp [List.any_cons, h, hp]

theorem snippetsGet_insert (m : SnippetMap) (k v : Str) :
    snippetsGet (snippetsInsert m k v) k = some v := by
  induction m with
  | nil => simp [snippetsInsert, snippetsContainsKey, snippetsGet]
  | cons p tl ih =>
    by_cases hp : p.1 = k
    · have hc : snippetsContainsKey (p :: tl) k = true := by
        simp [snippetsContainsKey, hp]
      simp [snippetsInsert, hc, snippetsGet, hp]
    · rw [snippetsInsert_cons_ne p tl k v hp]
      simpa [snippetsGet, hp] using ih

theorem parse_snippet_inner_eq_spec (body : Str) :
    parse_snippet_inner body = spec_snippet_strip body := by
  unfold parse_snippet_inner spec_snippet_strip
  cases h : ((rustLines body).map leadingWsCount).min? <;> simp [h]

/- ### Claim theorems. -/

/-- C2: for every snippet body text, the registered snippet content equals
the input lines each stripped of exactly N leading characters and rejoined
with newline, where N is the minimum leading-whitespace character count
over all lines of the body, blank lines included. -/
theorem c2_snippet_reindent (id body txt : Str) (ln ln2 ln3 : Nat) (st : St) :
    snippetsGet (parse_snippet (.mk .snippet txt ln
        [.mk .identifier id ln2 [], .mk .snippet_inner body ln3 []]) st).1.snippets id
      = some (spec_snippet_strip body) := by
  rw [← parse_snippet_inner_eq_spec]
  by_cases h : snippetsContainsKey st.1.snippets id
  · simp [parse_snippet, parse_identifier, PTree.rule, PTree.text, PTree.children,
      h, snippetsGet_insert]
  · simp [parse_snippet, parse_identifier, PTree.rule, PTree.text, PTree.children,
      h, snippetsGet_insert]

/-- C5: for every doc-comment block, the extracted text is the input lines
processed in original order, each mapped to the whitespace-trimmed
remainder after the comment marker (or the empty string when the marker is
absent on that line), joined with newline, preserving order and blank
entries. -/
theorem c5_doc_comment_extraction (text : Str) :
    parse_doc_comments text = joinLines ((rustLines text).map spec_doc_line) := by
  unfold parse_doc_comments spec_doc_line
  congr 1
  apply List.map_congr_left
  intro line _
  cases h : findSub (str "///") line <;> simp [h]

/-- C3: a function element parsed inside a struct or class body and approved
for export is appended to the constructors list (and never the methods
list) exactly when its return type is absent, regardless of its identifier
text, and to the methods list when its return type is present. -/
theorem c3_constructor_classification (t : PTree) (rest : List PTree)
    (result : StructClass) (vis : Visibility) (settings : Settings) (st : St)
    (filename : Str) (f : Function) (st' : St)
    (hrule : t.rule = .element)
    (hparse : parse_element t vis settings st filename = (.Function f, st'))
    (hexp : f.can_export settings = true) :
    parse_struct_class_body_go (t :: rest) result vis settings st filename =
      parse_struct_class_body_go rest
        (if f.return_type = none then
          { result with constructors := result.constructors ++ [f] }
        else
          { result with methods := result.methods ++ [f] })
        vis settings st' filename := by
  cases hr : f.return_type <;>
    simp [parse_struct_class_body_go, hrule, hparse, hexp, hr]

/-- Witness for C3: a concrete function element with a constructor signature
(no return type) named `MakeThing` lands in the constructors list. -/
theorem c3_witness :
    c3CtorElem.rule = .element ∧
    parse_element c3CtorElem .Public {} ({}, []) (str "a.h") =
      (.Function { name := str "MakeThing", visibility := .Public,
                   specifiers := some {}, filename := str "a.h", fileline := 2 },
       ({}, [])) ∧
    ({ name := str "MakeThing", visibility := .Public, specifiers := some {},
       filename := str "a.h", fileline := 2 : Function }).can_export {} = true ∧
    parse_struct_class_body_go [c3CtorElem] {} .Public {} ({}, []) (str "a.h") =
      parse_struct_class_body_go []
        (if ({ name := str "MakeThing", visibility := .Public,
               specifiers := some {}, filename := str "a.h",
               fileline := 2 : Function }).return_type = none then
          { constructors := [{ name := str "MakeThing", visibility := .Public,
                               specifiers := some {}, filename := str "a.h",
                               fileline := 2 }] : StructClass }
        else
          { methods := [{ name := str "MakeThing", visibility := .Public,
                          specifiers := some {}, filename := str "a.h",
                          fileline := 2 }] : StructClass })
        .Public {} ({}, []) (str "a.h") :=
  ⟨by decide, by decide, by decide,
   c3_constructor_classification c3CtorElem [] {} .Public {} ({}, []) (str "a.h")
     _ _ (by decide) (by decide) (by decide)⟩

theorem parse_property_signature_visibility (t : PTree) (r : Property) :
    (parse_property_signature t r).visibility = r.visibility :=
  foldl_preserves (fun (x : Property) => x.visibility = r.visibility) _ t.children r rfl
    (fun b c hb => by cases hc : c.rule <;> simp [hc, hb])

theorem parse_element_property_visibility (t : PTree) (dc : Option Str)
    (vis : Visibility) : (parse_element_property t dc vis).visibility = vis :=
  foldl_preserves (fun (x : Property) => x.visibility = vis) _ t.children _ rfl
    (fun b c hb => by
      cases hc : c.rule <;> simp [hc, hb, parse_property_signature_visibility])

theorem parse_function_arguments_visibility (t : PTree) (r : Function) :
    (parse_function_arguments t r).visibility = r.visibility :=
  foldl_preserves (fun (x : Function) => x.visibility = r.visibility) _ t.children r rfl
    (fun b c hb => by by_cases hc : c.rule = .function_argument <;> simp [hc, hb])

theorem parse_function_signature_visibility (t : PTree) (r : Function) :
    (parse_function_signature t r).visibility = r.visibility :=
  foldl_preserves (fun (x : Function) => x.visibility = r.visibility) _ t.children r rfl
    (fun b c hb => by
      cases hc : c.rule <;> simp [hc, hb, parse_function_arguments_visibility])

theorem parse_element_function_visibility (t : PTree) (dc : Option Str)
    (vis : Visibility) (st : St) (fn : Str) :
    (parse_element_function t dc vis st fn).1.visibility = vis :=
  foldl_preserves (fun (x : Function × St) => x.1.visibility = vis) _ t.children _ rfl
    (fun b c hb => by
      cases hc : c.rule <;> simp [hc, hb, parse_function_signature_visibility])

theorem parse_element_go_property_visibility (cs : List PTree) (result : Element)
    (dc : Option Str) (vis : Visibility) (settings : Settings) (st : St)
    (fn : Str) (p : Property) (st' : St)
    (h : parse_element_go cs result dc vis settings st fn = (.Property p, st')) :
    p.visibility = vis ∨ result = .Property p := by
  induction cs generalizing result dc st with
  | nil =>
    simp only [parse_element_go, Prod.mk.injEq] at h
    exact Or.inr h.1
  | cons c rest ih =>
    cases hc : c.rule <;> simp only [parse_element_go, hc] at h
    case element_property =>
      rcases ih _ _ _ h with hv | he
      · exact Or.inl hv
      · injection he with he'
        exact Or.inl (he' ▸ parse_element_property_visibility c dc vis)
    case element_enum =>
      rcases ih _ _ _ h with hv | he
      · exact Or.inl hv
      · exact absurd he (by simp)
    case element_struct =>
      rcases ih _ _ _ h with hv | he
      · exact Or.inl hv
      · exact absurd he (by simp)
    case element_class =>
      rcases ih _ _ _ h with hv | he
      · exact Or.inl hv
      · exact absurd he (by simp)
    case element_function =>
      rcases ih _ _ _ h with hv | he
      · exact Or.inl hv
      · exact absurd he (by simp)
    case element_delegate =>
      rcases ih _ _ _ h with hv | he
      · exact Or.inl hv
      · exact absurd he (by simp)
    case element_multicast_delegate =>
      rcases ih _ _ _ h with hv | he
      · exact Or.inl hv
      · exact absurd he (by simp)
    case element_dynamic_delegate =>
      rcases ih _ _ _ h with hv | he
      · exact Or.inl hv
      · exact absurd he (by simp)
    case element_dyn_multicast_delegate =>
      rcases ih _ _ _ h with hv | he
      · exact Or.inl hv
      · exact absurd he (by simp)
    all_goals exact ih _ _ _ h

theorem parse_element_go_function_visibility (cs : List PTree) (result : Element)
    (dc : Option Str) (vis : Visibility) (settings : Settings) (st : St)
    (fn : Str) (f : Function) (st' : St)
    (h : parse_element_go cs result dc vis settings st fn = (.Function f, st')) :
    f.visibility = vis ∨ result = .Function f := by
  induction cs generalizing result dc st with
  | nil =>
    simp only [parse_element_go, Prod.mk.injEq] at h
    exact Or.inr h.1
  | cons c rest ih =>
    cases hc : c.rule <;> simp only [parse_element_go, hc] at h
    case element_function =>
      rcases ih _ _ _ h with hv | he
      · exact Or.inl hv
      · injection he with he'
        exact Or.inl (he' ▸ parse_element_function_visibility c dc vis st fn)
    case element_enum =>
      rcases ih _ _ _ h with hv | he
      · exact Or.inl hv
      · exact absurd he (by simp)
    case element_struct =>
      rcases ih _ _ _ h with hv | he
      · exact Or.inl hv
      · exact absurd he (by simp)
    case element_class =>
      rcases ih _ _ _ h with hv | he
      · exact Or.inl hv
      · exact absurd he (by simp)
    case element_property =>
      rcases ih _ _ _ h with hv | he
      · exact Or.inl hv
      · exact absurd he (by simp)
    case element_delegate =>
      rcases ih _ _ _ h with hv | he
      · exact Or.inl hv
      · exact absurd he (by simp)
    case element_multicast_delegate =>
      rcases ih _ _ _ h with hv | he
      · exact Or.inl hv
      · exact absurd he (by simp)
    case element_dynamic_delegate =>
      rcases ih _ _ _ h with hv | he
      · exact Or.inl hv
      · exact absurd he (by simp)
    case element_dyn_multicast_delegate =>
      rcases ih _ _ _ h with hv | he
      · exact Or.inl hv
      · exact absurd he (by simp)
    all_goals exact ih _ _ _ h

/-- C4: member visibility is seeded `Public` for a struct body and `Private`
for a class body; each member is parsed with the visibility current at its
position (any property or function an element parses to carries exactly the
threaded visibility); a visibility-label child with text `private`,
`protected` or `public` replaces the threaded value for all subsequent
members, and any other label text leaves it unchanged without error. -/
theorem c4_visibility_threading :
    (StructClassMode.Struct.default_visibility = .Public ∧
     StructClassMode.Class.default_visibility = .Private) ∧
    (∀ (c : PTree) (rest : List PTree) (result : StructClass) (mode : StructClassMode)
       (settings : Settings) (st : St) (fn : Str), c.rule = .struct_class_body →
      parse_element_struct_class_go (c :: rest) result mode settings st fn =
        (let r := parse_struct_class_body c result mode.default_visibility settings st fn
         parse_element_struct_class_go rest r.1 mode settings r.2 fn)) ∧
    (∀ (c : PTree) (rest : List PTree) (result : StructClass) (vis : Visibility)
       (settings : Settings) (st : St) (fn : Str), c.rule = .visibility →
      parse_struct_class_body_go (c :: rest) result vis settings st fn =
        parse_struct_class_body_go rest result
          (if c.text = str "private" then .Private
           else if c.text = str "protected" then .Protected
           else if c.text = str "public" then .Public
           else vis) settings st fn) ∧
    (∀ (t : PTree) (vis : Visibility) (settings : Settings) (st : St) (fn : Str)
       (p : Property) (st' : St),
      parse_element t vis settings st fn = (.Property p, st') →
      p.visibility = vis) ∧
    (∀ (t : PTree) (vis : Visibility) (settings : Settings) (st : St) (fn : Str)
       (f : Function) (st' : St),
      parse_element t vis settings st fn = (.Function f, st') →
      f.visibility = vis) := by
  refine ⟨⟨rfl, rfl⟩, ?_, ?_, ?_, ?_⟩
  · intro c rest result mode settings st fn hc
    simp [parse_element_struct_class_go, hc]
  · intro c rest result vis settings st fn hc
    have hv : (match parse_visibility c with
        | some v => v
        | none => vis) =
        (if c.text = str "private" then .Private
         else if c.text = str "protected" then .Protected
         else if c.text = str "public" then .Public
         else vis) := by
      unfold parse_visibility
      split_ifs <;> rfl
    simp only [parse_struct_class_body_go, hc, hv]
  · intro t vis settings st fn p st' h
    match t with
    | .mk r txt ln cs =>
      have h' : parse_element_go cs .None none vis settings st fn = (.Property p, st') := h
      rcases parse_element_go_property_visibility cs .None none vis settings st fn p st' h' with hv | he
      · exact hv
      · exact absurd he (by simp)
  · intro t vis settings st fn f st' h
    match t with
    | .mk r txt ln cs =>
      have h' : parse_element_go cs .None none vis settings st fn = (.Function f, st') := h
      rcases parse_element_go_function_visibility cs .None none vis settings st fn f st' h' with hv | he
      · exact hv
      · exact absurd he (by simp)

/-- Witness for C4: a `protected` label routes subsequent parsing through
`Protected`, and a concrete property element parsed under `Protected`
carries that visibility. -/
theorem c4_witness :
    c4Label.rule = .visibility ∧
    (parse_struct_class_body_go [c4Label] {} .Public {} ({}, []) (str "a.h") =
      parse_struct_class_body_go [] {}
        (if c4Label.text = str "private" then .Private
         else if c4Label.text = str "protected" then .Protected
         else if c4Label.text = str "public" then .Public
         else .Public) {} ({}, []) (str "a.h")) ∧
    ({ name := str "Health", value_type := str "int32", specifiers := some {},
       visibility := .Protected : Property }).visibility = .Protected :=
  ⟨by decide,
   c4_visibility_threading.2.2.1 c4Label [] {} .Public {} ({}, []) (str "a.h")
     (by decide),
   c4_visibility_threading.2.2.2.1 propElemHealth .Protected {} ({}, []) (str "a.h")
     { name := str "Health", value_type := str "int32", specifiers := some {},
       visibility := .Protected } ({}, []) (by decide)⟩

theorem parse_delegate_args_multicast (t : PTree) (d : Delegate) :
    (parse_delegate_args t d).multicast = d.multicast :=
  foldl_preserves (fun (x : Delegate) => x.multicast = d.multicast) _ t.children d rfl
    (fun b c hb => by cases hc : c.rule <;> simp [hc, hb])

theorem parse_delegate_args_dynamic (t : PTree) (d : Delegate) :
    (parse_delegate_args t d).dynamic = d.dynamic :=
  foldl_preserves (fun (x : Delegate) => x.dynamic = d.dynamic) _ t.children d rfl
    (fun b c hb => by cases hc : c.rule <;> simp [hc, hb])

theorem parse_element_delegate_multicast (t : PTree) (dc : Option Str)
    (d : Document) (fn : Str) :
    (parse_element_delegate t dc d fn).multicast =
      decide (t.rule = .element_multicast_delegate ∨
        t.rule = .element_dyn_multicast_delegate) := by
  unfold parse_element_delegate
  refine foldl_preserves
    (fun (x : Delegate) => x.multicast = decide (t.rule = .element_multicast_delegate ∨
      t.rule = .element_dyn_multicast_delegate)) _ t.children _ ?_ ?_
  · dsimp only
    split_ifs with h1 h2 <;> simp_all
  · intro b c hb
    cases hc : c.rule <;>
      simp [hc, hb, parse_delegate_args_multicast]

theorem parse_element_delegate_dynamic (t : PTree) (dc : Option Str)
    (d : Document) (fn : Str) :
    (parse_element_delegate t dc d fn).dynamic =
      decide (t.rule = .element_dynamic_delegate ∨
        t.rule = .element_dyn_multicast_delegate) := by
  unfold parse_element_delegate
  refine foldl_preserves
    (fun (x : Delegate) => x.dynamic = decide (t.rule = .element_dynamic_delegate ∨
      t.rule = .element_dyn_multicast_delegate)) _ t.children _ ?_ ?_
  · dsimp only
    split_ifs with h1 h2 <;> simp_all
  · intro b c hb
    cases hc : c.rule <;>
      simp [hc, hb, parse_delegate_args_dynamic]

/-- C6: a delegate's multicast flag is true exactly when the rule kind is
plain-multicast or dynamic-multicast, and its dynamic flag is true exactly
when the rule kind is dynamic or dynamic-multicast; a dynamic non-multicast
delegate with single argument pair `(int32, Value)` yields dynamic=true,
multicast=false and one argument named `Value` of raw type `int32`. -/
theorem c6_delegate_flags :
    (∀ (t : PTree) (dc : Option Str) (d : Document) (fn : Str),
      ((parse_element_delegate t dc d fn).multicast = true ↔
        (t.rule = .element_multicast_delegate ∨
         t.rule = .element_dyn_multicast_delegate)) ∧
      ((parse_element_delegate t dc d fn).dynamic = true ↔
        (t.rule = .element_dynamic_delegate ∨
         t.rule = .element_dyn_multicast_delegate))) ∧
    parse_element_delegate c6DynDelegate none {} (str "a.h") =
      { name := str "FOnValue", multicast := false, dynamic := true,
        arguments := [{ name := some (str "Value"), value_type := str "int32" }],
        specifiers := some {}, filename := str "a.h", fileline := 7 } := by
  refine ⟨fun t dc d fn => ⟨?_, ?_⟩, by decide⟩
  · rw [parse_element_delegate_multicast]
    simp
  · rw [parse_element_delegate_dynamic]
    simp

theorem parse_element_go_doc_then_property (pre : List PTree) (v : PTree)
    (result : Element) (dc : Option Str) (vis : Visibility) (settings : Settings)
    (st : St) (fn : Str)
    (hpre : ∀ c ∈ pre, c.rule = .doc_comment_lines)
    (hv : v.rule = .element_property) :
    ∃ p, parse_element_go (pre ++ [v]) result dc vis settings st fn =
      (.Property p, st) := by
  induction pre generalizing result dc with
  | nil =>
    refine ⟨parse_element_property v dc vis, ?_⟩
    simp [parse_element_go, hv]
  | cons c pre' ih =>
    have hc : c.rule = .doc_comment_lines := hpre c (by simp)
    have hpre' : ∀ x ∈ pre', x.rule = .doc_comment_lines :=
      fun x hx => hpre x (by simp [hx])
    obtain ⟨p, hp⟩ := ih result (some (parse_doc_comments c.text)) hpre'
    exact ⟨p, by simpa [parse_element_go, hc] using hp⟩

/-- C9: a top-level element that parses to the Property variant leaves the
Document (and the warning log) entirely unchanged: plain properties outside
a struct/class body are silently discarded and enter no collection. -/
theorem c9_file_level_property_discarded (g : ElementOracle) (t v : PTree)
    (pre rest : List PTree) (settings : Settings) (st : St) (fn : Str)
    (hrule : t.rule = .element)
    (hch : t.children = pre ++ [v])
    (hpre : ∀ c ∈ pre, c.rule = .doc_comment_lines)
    (hv : v.rule = .element_property) :
    (∃ p, parse_element t .Public settings st fn = (.Property p, st)) ∧
    parse_file_go g (t :: rest) settings st fn =
      parse_file_go g rest settings st fn := by
  obtain ⟨p, hp⟩ := parse_element_go_doc_then_property pre v
    .None none .Public settings st fn hpre hv
  have hpe : parse_element t .Public settings st fn = (.Property p, st) := by
    cases t with
    | mk r txt ln cs =>
      simp only [PTree.children] at hch
      subst hch
      simpa [parse_element] using hp
  refine ⟨⟨p, hpe⟩, ?_⟩
  simp [parse_file_go, hrule, hpe, dispatchElement]

/-- Witness for C9: a concrete file-level plain property element changes
nothing. -/
theorem c9_witness :
    (∃ p, parse_element propElemHealth .Public {} ({}, []) (str "a.h") =
      (.Property p, ({}, []))) ∧
    parse_file_go (fun _ => none) [propElemHealth] {} ({}, []) (str "a.h") =
      parse_file_go (fun _ => none) [] {} ({}, []) (str "a.h") :=
  c9_file_level_property_discarded (fun _ => none) propElemHealth
    (.mk .element_property (str "int32 Health;") 5
      [.mk .uproperty (str "UPROPERTY()") 4 [],
       .mk .property_signature (str "int32 Health;") 5
         [.mk .value_type (str "int32 ") 5 [],
          .mk .identifier (str "Health") 5 []]])
    [] [] {} ({}, []) (str "a.h") (by decide) (by rfl) (by simp) (by decide)

/-- C10: a snippet embedded in a function body is inserted into the snippet
map during function parsing itself, and the export predicate's rejection of
the enclosing function only drops the function from the struct/class —
the state produced by parsing (with its snippet registrations) is kept. -/
theorem c10_snippet_survives_export_rejection :
    (∀ (sigText bodyText snipText txt id body : Str)
       (ln l1 l2 l3 l4 l5 : Nat) (sigChildren : List PTree) (dc : Option Str)
       (vis : Visibility) (st : St) (fn : Str),
      snippetsGet (parse_element_function
          (.mk .element_function txt ln
            [.mk .function_signature sigText l1 sigChildren,
             .mk .function_body bodyText l2
               [.mk .snippet snipText l3
                 [.mk .identifier id l4 [],
                  .mk .snippet_inner body l5 []]]])
          dc vis st fn).2.1.snippets id = some (parse_snippet_inner body)) ∧
    (∀ (c : PTree) (rest : List PTree) (result : StructClass) (vis : Visibility)
       (settings : Settings) (st : St) (fn : Str) (f : Function) (st' : St),
      c.rule = .element →
      parse_element c vis settings st fn = (.Function f, st') →
      f.can_export settings = false →
      parse_struct_class_body_go (c :: rest) result vis settings st fn =
        parse_struct_class_body_go rest result vis settings st' fn) := by
  constructor
  · intro sigText bodyText snipText txt id body ln l1 l2 l3 l4 l5 sigChildren
      dc vis st fn
    by_cases h : snippetsContainsKey st.1.snippets id <;>
      simp [parse_element_function, parse_function_body, parse_snippet,
        parse_identifier, PTree.rule, PTree.text, PTree.children, h,
        snippetsGet_insert]
  · intro c rest result vis settings st fn f st' hrule hparse hexp
    simp [parse_struct_class_body_go, hrule, hparse, hexp]

/-- Witness for C10: the concrete function element `funcElemWithSnippet`
registers snippet `snip` during parsing, and with an export policy that
rejects every function the struct/class member lists stay empty while the
parse state keeps the registered snippet. -/
theorem c10_witness :
    snippetsGet (parse_element_function
        (.mk .element_function (str "void Foo() ...") 1
          [.mk .function_signature (str "void Foo()") 1
            [.mk .value_type (str "void ") 1 [],
             .mk .identifier (str "Foo") 1 [],
             .mk .function_arguments [] 1 []],
           .mk .function_body (str "...") 1
             [.mk .snippet (str "// [Snippet: snip] ...") 2
               [.mk .identifier (str "snip") 2 [],
                .mk .snippet_inner (str "x") 3 []]]])
        none .Public ({}, []) (str "a.h")).2.1.snippets (str "snip")
      = some (parse_snippet_inner (str "x")) ∧
    parse_struct_class_body_go [funcElemWithSnippet] {} .Public
        rejectFunctionsSettings ({}, []) (str "a.h") =
      parse_struct_class_body_go [] {} .Public rejectFunctionsSettings
        ({ snippets := [(str "snip", str "x")] }, []) (str "a.h") :=
  ⟨c10_snippet_survives_export_rejection.1 (str "void Foo()") (str "...")
     (str "// [Snippet: snip] ...") (str "void Foo() ...") (str "snip") (str "x")
     1 1 1 2 2 3
     [.mk .value_type (str "void ") 1 [],
      .mk .identifier (str "Foo") 1 [],
      .mk .function_arguments [] 1 []] none .Public ({}, []) (str "a.h"),
   c10_snippet_survives_export_rejection.2 funcElemWithSnippet [] {} .Public
     rejectFunctionsSettings ({}, []) (str "a.h")
     { name := str "Foo", return_type := some (str "void"), visibility := .Public,
       filename := str "a.h", fileline := 1 }
     ({ snippets := [(str "snip", str "x")] }, [])
     (by decide) (by decide) (by rfl)⟩

/-- Counterexample for C1: a file declaring the enum `E` twice ends with TWO
entries named `E` in the enum collection (the earlier entry is not removed,
so the length after the second declaration is 2, not 1), with the
"Overwriting" warning logged once. -/
theorem c1_counterexample :
    (parse_file (fun _ => none) c1File {} ({}, []) (str "a.h")).map
        (fun st => (st.1.enums.map Enum.name, st.2)) =
      some ([str "E", str "E"], [str "Overwriting existing enum: E"]) := by
  decide

/-- C1 as amended: when a file-level entity is export-approved and its name
already names an entry in the matching collection, the warning is logged
and the new entity is appended after the existing entries — the earlier
entry is retained and the collection grows by one; the condition is never
an error (name-keyed last-write-wins only happens downstream, where the
rendering backend keys output files by entity name). -/
theorem c1_duplicate_appends_with_warning :
    (∀ (e : Enum) (settings : Settings) (st : St),
      e.can_export settings = true →
      st.1.enums.any (fun item => item.name = e.name) = true →
      dispatchElement (.Enum e) settings st =
        ({ st.1 with enums := st.1.enums ++ [e] },
         st.2 ++ [str "Overwriting existing enum: " ++ e.name])) ∧
    (∀ (e : StructClass) (settings : Settings) (st : St),
      e.mode = .Struct →
      e.can_export settings = true →
      st.1.structs.any (fun item => item.name = e.name) = true →
      dispatchElement (.StructClass e) settings st =
        ({ st.1 with structs := st.1.structs ++ [e] },
         st.2 ++ [str "Overwriting existing struct: " ++ e.name])) ∧
    (∀ (e : StructClass) (settings : Settings) (st : St),
      e.mode = .Class →
      e.can_export settings = true →
      st.1.classes.any (fun item => item.name = e.name) = true →
      dispatchElement (.StructClass e) settings st =
        ({ st.1 with classes := st.1.classes ++ [e] },
         st.2 ++ [str "Overwriting existing class: " ++ e.name])) ∧
    (∀ (e : Function) (settings : Settings) (st : St),
      e.can_export settings = true →
      st.1.functions.any (fun item => item.name = e.name) = true →
      dispatchElement (.Function e) settings st =
        ({ st.1 with functions := st.1.functions ++ [e] },
         st.2 ++ [str "Overwriting existing function: " ++ e.name])) ∧
    (∀ (e : Delegate) (settings : Settings) (st : St),
      e.can_export settings = true →
      st.1.delegates.any (fun item => item.name = e.name) = true →
      dispatchElement (.Delegate e) settings st =
        ({ st.1 with delegates := st.1.delegates ++ [e] },
         st.2 ++ [str "Overwriting existing delegate: " ++ e.name])) := by
  refine ⟨?_, ?_, ?_, ?_, ?_⟩
  · intro e settings st hexp hdup
    simp [dispatchElement, hexp, hdup]
  · intro e settings st hmode hexp hdup
    simp [dispatchElement, hmode, hexp, hdup]
  · intro e settings st hmode hexp hdup
    simp [dispatchElement, hmode, hexp, hdup]
  · intro e settings st hexp hdup
    simp [dispatchElement, hexp, hdup]
  · intro e settings st hexp hdup
    simp [dispatchElement, hexp, hdup]

/-- Witness for C1: dispatching a second enum named `E` onto a document that
already holds an enum `E` appends it and logs the warning. -/
theorem c1_witness :
    dispatchElement (.Enum { name := str "E" }) {}
        ({ enums := [{ name := str "E" }] }, []) =
      ({ enums := [{ name := str "E" }, { name := str "E" }] },
       [str "Overwriting existing enum: E"]) := by
  have h := c1_duplicate_appends_with_warning.1 { name := str "E" } {}
    ({ enums := [{ name := str "E" }] }, []) (by decide) (by decide)
  simpa using h

theorem parse_proxy_isSome (g : ElementOracle) (c : PTree) (settings : Settings)
    (st : St) (fn : Str) (tree : PTree)
    (hg : g (proxyContent c) = some tree) (hr : tree.rule = .element) :
    ∃ st', parse_proxy g c settings st fn = some st' := by
  have hg' : g (proxyFold c.children).2.2 = some tree := hg
  simp only [parse_proxy, parse_unreal_cpp_element, hg', hr, if_true]
  rcases hpe : parse_element tree .Public settings st fn with ⟨el, st2⟩
  cases el <;> cases hdoc : (proxyFold c.children).1 <;> simp [hdoc]

/-- C8: a proxy whose forwarded declaration text fails the standalone
element grammar does not produce an error value or skip the proxy — the
run aborts (the source's process-aborting path, modelled as `none`); by
contrast, whenever every proxy child's forwarded text is accepted by the
grammar, the file parse always completes with a result (every other
internal condition is absorbed as a logged warning or silent drop). -/
theorem c8_malformed_proxy_aborts :
    (∀ (g : ElementOracle) (t : PTree) (settings : Settings) (st : St) (fn : Str),
      g (proxyContent t) = none →
      parse_proxy g t settings st fn = none) ∧
    (∀ (g : ElementOracle) (cs : List PTree) (settings : Settings) (st : St)
       (fn : Str),
      (∀ c ∈ cs, c.rule = .proxy →
        ∃ tree, g (proxyContent c) = some tree ∧ tree.rule = .element) →
      (parse_file_go g cs settings st fn).isSome = true) := by
  constructor
  · intro g t settings st fn h
    have h' : g (proxyFold t.children).2.2 = none := h
    simp [parse_proxy, parse_unreal_cpp_element, h']
  · intro g cs settings st fn h
    induction cs generalizing st with
    | nil => simp [parse_file_go]
    | cons c rest ih =>
      have hrest : ∀ x ∈ rest, x.rule = .proxy →
          ∃ tree, g (proxyContent x) = some tree ∧ tree.rule = .element :=
        fun x hx => h x (List.mem_cons_of_mem _ hx)
      cases hc : c.rule <;> simp only [parse_file_go, hc]
      case proxy =>
        obtain ⟨tree, hg, hr⟩ := h c (List.mem_cons_self _ _) hc
        obtain ⟨st', hst'⟩ := parse_proxy_isSome g c settings st fn tree hg hr
        rw [hst']
        exact ih _ hrest
      all_goals exact ih _ hrest

/-- Witness for C8: with a grammar that rejects everything, the concrete
proxy aborts; with one that accepts its forwarded text as an element, the
file parse completes. -/
theorem c8_witness :
    parse_proxy (fun _ => none) c7Proxy {} ({}, []) (str "a.h") = none ∧
    (parse_file_go c7Oracle [c7Proxy] {} ({}, []) (str "a.h")).isSome = true :=
  ⟨c8_malformed_proxy_aborts.1 (fun _ => none) c7Proxy {} ({}, []) (str "a.h") rfl,
   c8_malformed_proxy_aborts.2 c7Oracle [c7Proxy] {} ({}, []) (str "a.h")
     (by
       intro c hm hcp
       simp only [List.mem_singleton] at hm
       subst hm
       exact ⟨funcElemWithSnippet, rfl, rfl⟩)⟩

theorem nonSnippetFieldsEq_refl (d : Document) : nonSnippetFieldsEq d d :=
  ⟨rfl, rfl, rfl, rfl, rfl, rfl, rfl⟩

theorem nonSnippetFieldsEq_trans {a b c : Document}
    (h1 : nonSnippetFieldsEq a b) (h2 : nonSnippetFieldsEq b c) :
    nonSnippetFieldsEq a c :=
  ⟨h2.1.trans h1.1, h2.2.1.trans h1.2.1, h2.2.2.1.trans h1.2.2.1,
   h2.2.2.2.1.trans h1.2.2.2.1, h2.2.2.2.2.1.trans h1.2.2.2.2.1,
   h2.2.2.2.2.2.1.trans h1.2.2.2.2.2.1, h2.2.2.2.2.2.2.trans h1.2.2.2.2.2.2⟩

theorem parse_snippet_frame (t : PTree) (st : St) :
    nonSnippetFieldsEq st.1 (parse_snippet t st).1 := by
  simp only [parse_snippet]
  split
  · exact ⟨rfl, rfl, rfl, rfl, rfl, rfl, rfl⟩
  · exact nonSnippetFieldsEq_refl st.1

theorem parse_function_body_frame (t : PTree) (st : St) :
    nonSnippetFieldsEq st.1 (parse_function_body t st).1 :=
  foldl_preserves (fun (x : St) => nonSnippetFieldsEq st.1 x.1) _ t.children st
    (nonSnippetFieldsEq_refl st.1)
    (fun b c hb => by
      by_cases hc : c.rule = .snippet <;> simp only [hc, if_true, if_false]
      · exact nonSnippetFieldsEq_trans hb (parse_snippet_frame c b)
      · simpa [hc] using hb)

theorem parse_element_function_frame (t : PTree) (dc : Option Str)
    (vis : Visibility) (st : St) (fn : Str) :
    nonSnippetFieldsEq st.1 (parse_element_function t dc vis st fn).2.1 :=
  foldl_preserves (fun (x : Function × St) => nonSnippetFieldsEq st.1 x.2.1) _
    t.children _ (nonSnippetFieldsEq_refl st.1)
    (fun b c hb => by
      cases hc : c.rule <;> simp only [hc]
      case function_body => exact nonSnippetFieldsEq_trans hb (parse_function_body_frame c b.2)
      all_goals exact hb)

mutual

theorem parse_element_frame (t : PTree) (vis : Visibility) (settings : Settings)
    (st : St) (fn : Str) :
    nonSnippetFieldsEq st.1 (parse_element t vis settings st fn).2.1 :=
  match t with
  | .mk _ _ _ cs => parse_element_go_frame cs .None none vis settings st fn

theorem parse_element_go_frame (cs : List PTree) (result : Element)
    (dc : Option Str) (vis : Visibility) (settings : Settings) (st : St)
    (fn : Str) :
    nonSnippetFieldsEq st.1 (parse_element_go cs result dc vis settings st fn).2.1 :=
  match cs with
  | [] => nonSnippetFieldsEq_refl st.1
  | c :: rest => by
    cases hc : c.rule <;> simp only [parse_element_go, hc]
    case element_struct =>
      exact nonSnippetFieldsEq_trans
        (parse_element_struct_class_frame c dc .Struct settings st fn)
        (parse_element_go_frame rest _ dc vis settings _ fn)
    case element_class =>
      exact nonSnippetFieldsEq_trans
        (parse_element_struct_class_frame c dc .Class settings st fn)
        (parse_element_go_frame rest _ dc vis settings _ fn)
    case element_function =>
      exact nonSnippetFieldsEq_trans
        (parse_element_function_frame c dc vis st fn)
        (parse_element_go_frame rest _ dc vis settings _ fn)
    all_goals exact parse_element_go_frame rest _ _ vis settings st fn

theorem parse_element_struct_class_frame (t : PTree) (dc : Option Str)
    (mode : StructClassMode) (settings : Settings) (st : St) (fn : Str) :
    nonSnippetFieldsEq st.1 (parse_element_struct_class t dc mode settings st fn).2.1 :=
  match t with
  | .mk _ _ _ cs => parse_element_struct_class_go_frame cs _ mode settings st fn

theorem parse_element_struct_class_go_frame (cs : List PTree)
    (result : StructClass) (mode : StructClassMode) (settings : Settings)
    (st : St) (fn : Str) :
    nonSnippetFieldsEq st.1
      (parse_element_struct_class_go cs result mode settings st fn).2.1 :=
  match cs with
  | [] => nonSnippetFieldsEq_refl st.1
  | c :: rest => by
    cases hc : c.rule <;> simp only [parse_element_struct_class_go, hc]
    case struct_class_body =>
      exact nonSnippetFieldsEq_trans
        (parse_struct_class_body_frame c result mode.default_visibility settings st fn)
        (parse_element_struct_class_go_frame rest _ mode settings _ fn)
    all_goals exact parse_element_struct_class_go_frame rest _ mode settings st fn

theorem parse_struct_class_body_frame (t : PTree) (result : StructClass)
    (vis : Visibility) (settings : Settings) (st : St) (fn : Str) :
    nonSnippetFieldsEq st.1
      (parse_struct_class_body t result vis settings st fn).2.1 :=
  match t with
  | .mk _ _ _ cs => parse_struct_class_body_go_frame cs result vis settings st fn

theorem parse_struct_class_body_go_frame (cs : List PTree) (result : StructClass)
    (vis : Visibility) (settings : Settings) (st : St) (fn : Str) :
    nonSnippetFieldsEq st.1
      (parse_struct_class_body_go cs result vis settings st fn).2.1 :=
  match cs with
  | [] => nonSnippetFieldsEq_refl st.1
  | c :: rest => by
    cases hc : c.rule <;> simp only [parse_struct_class_body_go, hc]
    case element =>
      rcases hr : parse_element c vis settings st fn with ⟨el, st2⟩
      have hel : nonSnippetFieldsEq st.1 st2.1 := by
        have h0 := parse_element_frame c vis settings st fn
        rw [hr] at h0
        exact h0
      have step : ∀ (result' : StructClass),
          nonSnippetFieldsEq st.1
            (parse_struct_class_body_go rest result' vis settings st2 fn).2.1 :=
        fun result' => nonSnippetFieldsEq_trans hel
          (parse_struct_class_body_go_frame rest result' vis settings st2 fn)
      cases el <;> exact step _
    all_goals exact parse_struct_class_body_go_frame rest _ _ settings st fn

end

theorem logOnlySnippetWarnings_refl (st : St) : logOnlySnippetWarnings st st :=
  ⟨[], by simp, by simp⟩

theorem logOnlySnippetWarnings_trans {a b c : St}
    (h1 : logOnlySnippetWarnings a b) (h2 : logOnlySnippetWarnings b c) :
    logOnlySnippetWarnings a c := by
  obtain ⟨e1, he1, hw1⟩ := h1
  obtain ⟨e2, he2, hw2⟩ := h2
  refine ⟨e1 ++ e2, by simp [he2, he1], ?_⟩
  intro l hl
  rcases List.mem_append.mp hl with h | h
  · exact hw1 l h
  · exact hw2 l h

theorem parse_snippet_log (t : PTree) (st : St) :
    logOnlySnippetWarnings st (parse_snippet t st) := by
  simp only [parse_snippet]
  split
  · rename_i id content hfold
    by_cases h : snippetsContainsKey st.1.snippets id
    · refine ⟨[str "Overwriting existing snippet: " ++ id], by simp [h], ?_⟩
      intro l hl
      simp only [List.mem_singleton] at hl
      exact ⟨id, hl⟩
    · exact ⟨[], by simp [h], by simp⟩
  · exact logOnlySnippetWarnings_refl st

theorem parse_function_body_log (t : PTree) (st : St) :
    logOnlySnippetWarnings st (parse_function_body t st) :=
  foldl_preserves (fun (x : St) => logOnlySnippetWarnings st x) _ t.children st
    (logOnlySnippetWarnings_refl st)
    (fun b c hb => by
      by_cases hc : c.rule = .snippet <;> simp only [hc, if_true, if_false]
      · exact logOnlySnippetWarnings_trans hb (parse_snippet_log c b)
      · simpa [hc] using hb)

theorem parse_element_function_log (t : PTree) (dc : Option Str)
    (vis : Visibility) (st : St) (fn : Str) :
    logOnlySnippetWarnings st (parse_element_function t dc vis st fn).2 :=
  foldl_preserves (fun (x : Function × St) => logOnlySnippetWarnings st x.2) _
    t.children _ (logOnlySnippetWarnings_refl st)
    (fun b c hb => by
      cases hc : c.rule <;> simp only [hc]
      case function_body =>
        exact logOnlySnippetWarnings_trans hb (parse_function_body_log c b.2)
      all_goals exact hb)

mutual

theorem parse_element_log (t : PTree) (vis : Visibility) (settings : Settings)
    (st : St) (fn : Str) :
    logOnlySnippetWarnings st (parse_element t vis settings st fn).2 :=
  match t with
  | .mk _ _ _ cs => parse_element_go_log cs .None none vis settings st fn

theorem parse_element_go_log (cs : List PTree) (result : Element)
    (dc : Option Str) (vis : Visibility) (settings : Settings) (st : St)
    (fn : Str) :
    logOnlySnippetWarnings st (parse_element_go cs result dc vis settings st fn).2 :=
  match cs with
  | [] => logOnlySnippetWarnings_refl st
  | c :: rest => by
    cases hc : c.rule <;> simp only [parse_element_go, hc]
    case element_struct =>
      exact logOnlySnippetWarnings_trans
        (parse_element_struct_class_log c dc .Struct settings st fn)
        (parse_element_go_log rest _ dc vis settings _ fn)
    case element_class =>
      exact logOnlySnippetWarnings_trans
        (parse_element_struct_class_log c dc .Class settings st fn)
        (parse_element_go_log rest _ dc vis settings _ fn)
    case element_function =>
      exact logOnlySnippetWarnings_trans
        (parse_element_function_log c dc vis st fn)
        (parse_element_go_log rest _ dc vis settings _ fn)
    all_goals exact parse_element_go_log rest _ _ vis settings st fn

theorem parse_element_struct_class_log (t : PTree) (dc : Option Str)
    (mode : StructClassMode) (settings : Settings) (st : St) (fn : Str) :
    logOnlySnippetWarnings st (parse_element_struct_class t dc mode settings st fn).2 :=
  match t with
  | .mk _ _ _ cs => parse_element_struct_class_go_log cs _ mode settings st fn

theorem parse_element_struct_class_go_log (cs : List PTree)
    (result : StructClass) (mode : StructClassMode) (settings : Settings)
    (st : St) (fn : Str) :
    logOnlySnippetWarnings st
      (parse_element_struct_class_go cs result mode settings st fn).2 :=
  match cs with
  | [] => logOnlySnippetWarnings_refl st
  | c :: rest => by
    cases hc : c.rule <;> simp only [parse_element_struct_class_go, hc]
    case struct_class_body =>
      exact logOnlySnippetWarnings_trans
        (parse_struct_class_body_log c result mode.default_visibility settings st fn)
        (parse_element_struct_class_go_log rest _ mode settings _ fn)
    all_goals exact parse_element_struct_class_go_log rest _ mode settings st fn

theorem parse_struct_class_body_log (t : PTree) (result : StructClass)
    (vis : Visibility) (settings : Settings) (st : St) (fn : Str) :
    logOnlySnippetWarnings st
      (parse_struct_class_body t result vis settings st fn).2 :=
  match t with
  | .mk _ _ _ cs => parse_struct_class_body_go_log cs result vis settings st fn

theorem parse_struct_class_body_go_log (cs : List PTree) (result : StructClass)
    (vis : Visibility) (settings : Settings) (st : St) (fn : Str) :
    logOnlySnippetWarnings st
      (parse_struct_class_body_go cs result vis settings st fn).2 :=
  match cs with
  | [] => logOnlySnippetWarnings_refl st
  | c :: rest => by
    cases hc : c.rule <;> simp only [parse_struct_class_body_go, hc]
    case element =>
      rcases hr : parse_element c vis settings st fn with ⟨el, st2⟩
      have hel : logOnlySnippetWarnings st st2 := by
        have h0 := parse_element_log c vis settings st fn
        rw [hr] at h0
        exact h0
      have step : ∀ (result' : StructClass),
          logOnlySnippetWarnings st
            (parse_struct_class_body_go rest result' vis settings st2 fn).2 :=
        fun result' => logOnlySnippetWarnings_trans hel
          (parse_struct_class_body_go_log rest result' vis settings st2 fn)
      cases el <;> exact step _
    all_goals exact parse_struct_class_body_go_log rest _ _ settings st fn

end

theorem foldl_preserves_mem {α β : Type _} (P : β → Prop) (f : β → α → β)
    (l : List α) (b : β) (hb : P b) (h : ∀ b a, a ∈ l → P b → P (f b a)) :
    P (l.foldl f b) := by
  induction l generalizing b with
  | nil => exact hb
  | cons a tl ih =>
    exact ih _ (h _ _ (by simp) hb) (fun b x hx hbx => h b x (by simp [hx]) hbx)

theorem proxyFold_no_doc (cs : List PTree)
    (h : ∀ c ∈ cs, c.rule ≠ .doc_comment_lines) :
    (proxyFold cs).1 = none := by
  refine foldl_preserves_mem
    (fun (acc : Option Str × List Str × Str) => acc.1 = none) _ cs _ rfl ?_
  intro b c hmem hb
  cases hc : c.rule <;> simp [hc, hb]
  exact absurd hc (h c hmem)

/-- C7 (amended): a proxy block without a doc-comment block parses its
forwarded declaration (well-formed text parses without error), appends no
entry to either proxy collection, changes no entity collection of the
Document, and emits no proxy diagnostic — the log can grow only by
snippet-overwrite warnings arising from the forwarded parse itself.
However, unlike the claim's "rest of the Document is unchanged", a snippet
block embedded in the forwarded function's body is still registered in the
snippet map, so only the non-snippet fields are guaranteed unchanged. -/
theorem c7_proxy_without_docs_drops_entry (g : ElementOracle) (t : PTree)
    (settings : Settings) (st : St) (fn : Str)
    (hnodoc : ∀ c ∈ t.children, c.rule ≠ .doc_comment_lines) :
    parse_proxy g t settings st fn = none ∨
    ∃ st', parse_proxy g t settings st fn = some st' ∧
      nonSnippetFieldsEq st.1 st'.1 ∧
      logOnlySnippetWarnings st st' := by
  have hdoc : (proxyFold t.children).1 = none := proxyFold_no_doc _ hnodoc
  cases hg : g (proxyContent t) with
  | none =>
    have hg' : g (proxyFold t.children).2.2 = none := hg
    exact Or.inl (by simp [parse_proxy, parse_unreal_cpp_element, hg'])
  | some pair =>
    have hg' : g (proxyFold t.children).2.2 = some pair := hg
    by_cases hr : pair.rule = .element
    · rcases hpe : parse_element pair .Public settings st fn with ⟨el, st2⟩
      refine Or.inr ⟨st2, ?_, ?_, ?_⟩
      · cases el <;>
          simp [parse_proxy, parse_unreal_cpp_element, hg', hr, hpe, hdoc]
      · have h0 := parse_element_frame pair .Public settings st fn
        rw [hpe] at h0
        exact h0
      · have h0 := parse_element_log pair .Public settings st fn
        rw [hpe] at h0
        exact h0
    · exact Or.inl (by simp [parse_proxy, parse_unreal_cpp_element, hg', hr])

/-- Counterexample for C7: a doc-comment-less proxy whose forwarded text is
a function with a body snippet contributes no proxy entry and logs nothing,
yet the Document is NOT left unchanged — the snippet `snip` is registered
by the forwarded parse. -/
theorem c7_counterexample :
    (parse_proxy c7Oracle c7Proxy {} ({}, []) (str "a.h")).map
        (fun st => (st.1.proxy_functions.length, st.1.proxy_properties.length,
                    st.1.snippets, st.2)) =
      some (0, 0, [(str "snip", str "x")], []) := by
  rfl

/-- Witness for C7's amended theorem at the concrete doc-comment-less
proxy. -/
theorem c7_witness :
    parse_proxy c7Oracle c7Proxy {} ({}, []) (str "a.h") = none ∨
    ∃ st', parse_proxy c7Oracle c7Proxy {} ({}, []) (str "a.h") = some st' ∧
      nonSnippetFieldsEq ({} : Document) st'.1 ∧
      logOnlySnippetWarnings (({} : Document), []) st' :=
  c7_proxy_without_docs_drops_entry c7Oracle c7Proxy {} ({}, []) (str "a.h")
    (by decide)

end UnrealDoc
